import Mathlib

/-!
Verification of the yun-comments backend (FastAPI comment service).

This file gives a shallow embedding of the parts of the code base that the
frozen claims talk about:

* `app/utils/helpers.py` — `SecurityUtils.check_spam_content`,
  `CacheUtils.generate_cache_key`;
* `app/utils/rate_limiter.py` — `CustomLimiter._check_rate_limit`;
* `app/services/comment_service.py` — `_encode_cursor`, `_decode_cursor`,
  `_clear_page_cache`, `create_comment`, `get_comments` (cursor pagination),
  `get_replies`, `get_comment_by_id`, `delete_comment`, `get_page_stats`;
* `app/schemas/comment.py` — `CommentBase.validate_content`;
* `app/models/comment.py` — the `comments` table shape, including the
  foreign-key constraint on `parent_id`.

Machine integers are modelled as `Nat`/`Int` (Python ints are unbounded, so no
wrap-around is modelled).  Python strings are Lean `String`s (lists of unicode
scalar values, matching Python's sequence-of-code-points view).  Fallible
paths return `Option`/`Except`.
-/

/-! ## Python string primitives used by the code -/

/-- Python's substring test `sub in s`, on explicit character lists. -/
def containsSubList (sub : List Char) : List Char → Bool
  | [] => sub.isPrefixOf []
  | c :: rest => sub.isPrefixOf (c :: rest) || containsSubList sub rest

/-- Python's `sub in s` for strings. -/
def pyIn (sub s : String) : Bool := containsSubList sub.toList s.toList

/-- Python's `str.lower()`.  The blacklist keywords are ASCII or Chinese
(caseless), for which `Char.toLower` agrees with Python. -/
def pyLower (s : String) : String := ⟨s.data.map Char.toLower⟩

deriving instance DecidableEq for Except

/-- Python's `str(b)` for a `bool`: `"True"` / `"False"`. -/
def pyBoolStr : Bool → String
  | true => "True"
  | false => "False"

/-- Decimal digits of `n`, most significant first, with explicit fuel so the
definition is structural (kernel-reducible).  `natStr` always supplies enough
fuel. -/
def natCharsAux : Nat → Nat → List Char
  | 0, _ => []
  | fuel + 1, n =>
    if n < 10 then [Nat.digitChar n]
    else natCharsAux fuel (n / 10) ++ [Nat.digitChar (n % 10)]

/-- Python's `str(n)` for a non-negative int. -/
def natStr (n : Nat) : String := ⟨natCharsAux (n + 1) n⟩

/-- Numeric value of a list of decimal digit characters (left inverse of
`natCharsAux`). -/
def charsToNat (l : List Char) : Nat := l.foldl (fun a c => a * 10 + (c.toNat - 48)) 0

theorem charsToNat_append (l : List Char) (c : Char) :
    charsToNat (l ++ [c]) = charsToNat l * 10 + (c.toNat - 48) := by
  simp [charsToNat, List.foldl_append]

theorem digitChar_toNat {a : Nat} (h : a < 10) : (Nat.digitChar a).toNat - 48 = a := by
  interval_cases a <;> rfl

theorem digitChar_isDigit {a : Nat} (h : a < 10) : (Nat.digitChar a).isDigit = true := by
  interval_cases a <;> rfl

theorem charsToNat_natCharsAux : ∀ fuel n, n < fuel → charsToNat (natCharsAux fuel n) = n := by
  intro fuel
  induction fuel with
  | zero => intro n h; omega
  | succ fuel ih =>
    intro n h
    by_cases h10 : n < 10
    · simp [natCharsAux, h10, charsToNat, digitChar_toNat h10]
    · have hlt : n / 10 < fuel := by omega
      simp only [natCharsAux, h10, if_false, charsToNat_append, ih _ hlt,
        digitChar_toNat (Nat.mod_lt n (by omega))]
      omega

theorem natStr_injective {m n : Nat} (h : natStr m = natStr n) : m = n := by
  have hdata : natCharsAux (m + 1) m = natCharsAux (n + 1) n := congrArg String.data h
  have hm := charsToNat_natCharsAux (m + 1) m (by omega)
  have hn := charsToNat_natCharsAux (n + 1) n (by omega)
  rw [hdata, hn] at hm
  omega

theorem natCharsAux_digits : ∀ fuel n c, c ∈ natCharsAux fuel n → c.isDigit = true := by
  intro fuel
  induction fuel with
  | zero => intro n c h; simp [natCharsAux] at h
  | succ fuel ih =>
    intro n c h
    by_cases h10 : n < 10
    · simp [natCharsAux, h10] at h
      subst h; exact digitChar_isDigit h10
    · simp [natCharsAux, h10] at h
      rcases h with h | h
      · exact ih _ _ h
      · subst h; exact digitChar_isDigit (Nat.mod_lt n (by omega))

/-! ## Cache keys (`CacheUtils.generate_cache_key` and friends)

`generate_cache_key(prefix, *args)` returns `":".join([prefix] + [str(a) for
a in args])`.  The colon-join is modelled on character lists by `joinC`. -/

/-- Colon-join of a list of parts, as in Python's `":".join(parts)`. -/
def joinC : List (List Char) → List Char
  | [] => []
  | [x] => x
  | x :: y :: xs => x ++ ':' :: joinC (y :: xs)

/-- `CacheUtils.generate_cache_key`: the prefix and the stringified arguments,
colon-joined.  The caller has already applied `str` to each argument. -/
def generate_cache_key (pre : String) (args : List String) : String :=
  ⟨joinC (pre.data :: args.map String.data)⟩

/-- Cache key built by `get_comments` (comment_service.py lines 167-170). -/
def get_comments_cache_key (page cursor : String) (limit : Nat)
    (sort ord : String) (parent_only : Bool) : String :=
  generate_cache_key "comments_cursor"
    [page, cursor, natStr limit, sort, ord, pyBoolStr parent_only]

/-- Cache key built by `get_replies` (comment_service.py lines 273-275). -/
def get_replies_cache_key (parent_id : Nat) (cursor : String) (limit : Nat) : String :=
  generate_cache_key "replies" [natStr parent_id, cursor, natStr limit]

/-- Cache key built by `get_page_stats` (comment_service.py line 427):
`f"page_stats:{page}"`. -/
def page_stats_cache_key (page : String) : String := "page_stats:" ++ page

/-! ## Redis glob matching and `_clear_page_cache`

`_clear_page_cache(page)` runs `redis.keys(f"*comments*{page}*")` and deletes
the matches.  The pattern uses only literals and `*`, so a matcher for that
fragment of redis glob syntax suffices. -/

/-- Glob matching for patterns made of literal characters and `*` (the only
constructs appearing in `_clear_page_cache`'s pattern).  A `*` matches any
(possibly empty) run of characters. -/
def globMatch : List Char → List Char → Bool
  | [], s => s.isEmpty
  | '*' :: p, s => (s.tails).any (fun t => globMatch p t)
  | c :: p, [] => false
  | c :: p, c' :: s => c == c' && globMatch p s

/-- Whether `redis.keys(pat)` would return `key`. -/
def redisKeysMatch (pat key : String) : Bool := globMatch pat.data key.data

/-- The invalidation pattern of `_clear_page_cache` (comment_service.py
line 89): `f"*comments*{page}*"`. -/
def clear_page_pattern (page : String) : String := "*comments*" ++ page ++ "*"

/-- C1: after `create_comment` succeeds for a comment on page p, every cached
entry produced by the read paths for page p — the top-level listing cache
(prefix `comments_cursor`), the reply-listing cache (prefix `replies`), and
the page-statistics cache (`page_stats:{p}`) — has been removed, i.e. the
pattern used by `_clear_page_cache` matches all three key families.
Evaluated at page `"p"`: the pattern `*comments*p*` matches the listing key
but matches neither the page-stats key nor the reply-listing key, so the
reply and stats caches survive the invalidation. -/
theorem clear_page_cache_misses_stats_and_replies :
    redisKeysMatch (clear_page_pattern "p")
      (get_comments_cache_key "p" "" 20 "created_at" "desc" true) = true
    ∧ redisKeysMatch (clear_page_pattern "p") (page_stats_cache_key "p") = false
    ∧ redisKeysMatch (clear_page_pattern "p") (get_replies_cache_key 7 "" 10) = false := by
  refine ⟨by decide, by decide, by decide⟩

/-! ## C6: injectivity of the cache key -/

/-- A string with no `':'` character (so it cannot forge the join separator). -/
def colonFree (s : String) : Bool := s.data.all (fun c => !(c == ':'))

theorem splitColon : ∀ (x y r1 r2 : List Char),
    (∀ a ∈ x, a ≠ ':') → (∀ a ∈ y, a ≠ ':') →
    x ++ ':' :: r1 = y ++ ':' :: r2 → x = y ∧ r1 = r2 := by
  intro x
  induction x with
  | nil =>
    intro y r1 r2 _ hy h
    cases y with
    | nil => simpa using h
    | cons b y' =>
      simp only [List.nil_append, List.cons_append, List.cons.injEq] at h
      exact absurd h.1.symm (hy b (by simp))
  | cons a x' ih =>
    intro y r1 r2 hx hy h
    cases y with
    | nil =>
      simp only [List.nil_append, List.cons_append, List.cons.injEq] at h
      exact absurd h.1 (hx a (by simp))
    | cons b y' =>
      simp only [List.cons_append, List.cons.injEq] at h
      obtain ⟨h1, h2⟩ := ih y' r1 r2 (fun c hc => hx c (by simp [hc]))
        (fun c hc => hy c (by simp [hc])) h.2
      exact ⟨by rw [h.1, h1], h2⟩

theorem joinC_injective : ∀ (xs ys : List (List Char)),
    (∀ x ∈ xs, ∀ a ∈ x, a ≠ ':') → (∀ y ∈ ys, ∀ a ∈ y, a ≠ ':') →
    xs.length = ys.length → joinC xs = joinC ys → xs = ys := by
  intro xs
  induction xs with
  | nil =>
    intro ys _ _ hlen _
    cases ys with
    | nil => rfl
    | cons _ _ => simp at hlen
  | cons x xs' ih =>
    intro ys hx hy hlen hj
    cases ys with
    | nil => simp at hlen
    | cons y ys' =>
      cases xs' with
      | nil =>
        cases ys' with
        | nil => simpa [joinC] using hj
        | cons _ _ => simp at hlen
      | cons x2 xs'' =>
        cases ys' with
        | nil => simp at hlen
        | cons y2 ys'' =>
          simp only [joinC] at hj
          obtain ⟨h1, h2⟩ := splitColon x y _ _
            (hx x (by simp)) (hy y (by simp)) hj
          have := ih (y2 :: ys'')
            (fun z hz => hx z (by simp at hz ⊢; tauto))
            (fun z hz => hy z (by simp at hz ⊢; tauto))
            (by simpa using hlen) h2
          rw [h1, this]

theorem colonFree_noColon {s : String} (h : colonFree s = true) :
    ∀ a ∈ s.data, a ≠ ':' := by
  intro a ha
  have := List.all_eq_true.mp h a ha
  simpa using this

theorem natStr_noColon (n : Nat) : ∀ a ∈ (natStr n).data, a ≠ ':' := by
  intro a ha hcolon
  have := natCharsAux_digits (n + 1) n a ha
  rw [hcolon] at this
  simp [Char.isDigit] at this

theorem pyBoolStr_noColon (b : Bool) : ∀ a ∈ (pyBoolStr b).data, a ≠ ':' := by
  cases b <;> decide

theorem pyBoolStr_injective {b1 b2 : Bool} (h : pyBoolStr b1 = pyBoolStr b2) : b1 = b2 := by
  cases b1 <;> cases b2 <;> simp_all [pyBoolStr]

theorem string_data_injective {s t : String} (h : s.data = t.data) : s = t := by
  cases s; cases t; exact congrArg String.mk h

/-- C6 (amended): the cache-key function is injective on query tuples whose
string components are colon-free: if two tuples (page, cursor, limit, sort
field, sort order, boolean flag) produce the same `generate_cache_key` string
under the `comments_cursor` prefix and none of the string components contains
`':'`, the tuples are equal. -/
theorem generate_cache_key_injective
    (p1 c1 s1 o1 p2 c2 s2 o2 : String) (l1 l2 : Nat) (b1 b2 : Bool)
    (hp1 : colonFree p1 = true) (hc1 : colonFree c1 = true)
    (hs1 : colonFree s1 = true) (ho1 : colonFree o1 = true)
    (hp2 : colonFree p2 = true) (hc2 : colonFree c2 = true)
    (hs2 : colonFree s2 = true) (ho2 : colonFree o2 = true)
    (heq : get_comments_cache_key p1 c1 l1 s1 o1 b1 = get_comments_cache_key p2 c2 l2 s2 o2 b2) :
    p1 = p2 ∧ c1 = c2 ∧ l1 = l2 ∧ s1 = s2 ∧ o1 = o2 ∧ b1 = b2 := by
  have hjoin : joinC ["comments_cursor".data, p1.data, c1.data, (natStr l1).data,
      s1.data, o1.data, (pyBoolStr b1).data]
      = joinC ["comments_cursor".data, p2.data, c2.data, (natStr l2).data,
      s2.data, o2.data, (pyBoolStr b2).data] :=
    congrArg String.data heq
  have hparts := joinC_injective _ _
    (by
      intro x hx
      simp only [List.mem_cons, List.not_mem_nil, or_false] at hx
      rcases hx with h | h | h | h | h | h | h <;> subst h
      · decide
      · exact colonFree_noColon hp1
      · exact colonFree_noColon hc1
      · exact natStr_noColon l1
      · exact colonFree_noColon hs1
      · exact colonFree_noColon ho1
      · exact pyBoolStr_noColon b1)
    (by
      intro x hx
      simp only [List.mem_cons, List.not_mem_nil, or_false] at hx
      rcases hx with h | h | h | h | h | h | h <;> subst h
      · decide
      · exact colonFree_noColon hp2
      · exact colonFree_noColon hc2
      · exact natStr_noColon l2
      · exact colonFree_noColon hs2
      · exact colonFree_noColon ho2
      · exact pyBoolStr_noColon b2)
    (by rfl) hjoin
  simp only [List.cons.injEq, and_true] at hparts
  obtain ⟨-, hp, hc, hl, hs, ho, hb⟩ := hparts
  refine ⟨string_data_injective hp, string_data_injective hc, ?_,
    string_data_injective hs, string_data_injective ho, ?_⟩
  · exact natStr_injective (string_data_injective hl)
  · exact pyBoolStr_injective (string_data_injective hb)

/-- Witness for `generate_cache_key_injective` at a concrete tuple. -/
theorem generate_cache_key_injective_witness :
    ("a", "b", 3, "created_at", "desc", true)
      = (("a" : String), ("b" : String), (3 : Nat), ("created_at" : String),
         ("desc" : String), true) := by
  have h := generate_cache_key_injective "a" "b" "created_at" "desc"
    "a" "b" "created_at" "desc" 3 3 true true
    (by decide) (by decide) (by decide) (by decide)
    (by decide) (by decide) (by decide) (by decide) rfl
  obtain ⟨h1, h2, h3, h4, h5, h6⟩ := h
  rw [h1, h2, h3, h4, h5, h6]

/-- C6 (counterexample): two distinct query tuples — page `"a:b"` with cursor
`"c"`, versus page `"a"` with cursor `"b:c"` — produce the same cache key, so
`generate_cache_key` is not injective on distinct queries. -/
theorem generate_cache_key_collision :
    get_comments_cache_key "a:b" "c" 20 "created_at" "desc" true
      = get_comments_cache_key "a" "b:c" 20 "created_at" "desc" true
    ∧ (("a:b" : String), ("c" : String)) ≠ (("a" : String), ("b:c" : String)) := by
  refine ⟨by decide, by decide⟩

/-! ## The comments table

Only the columns the claims depend on are modelled; the enrichment columns
(email, email_hash, username, ip_address, user_agent, system_type, location,
timestamps) do not influence any claim and are omitted. -/

/-- A row of the `comments` table (app/models/comment.py). -/
structure CommentRow where
  id : Nat
  page : String
  content : String
  parent_id : Option Nat
  is_deleted : Bool
deriving DecidableEq, Repr

/-- SQLAlchemy's `query.filter(...).first()`: first row satisfying the
predicate, in table order. -/
def findFirst (rows : List CommentRow) (p : CommentRow → Bool) : Option CommentRow :=
  (rows.filter p).head?

/-! ## C9: page statistics (`get_page_stats`) -/

/-- Result shape of `get_page_stats`.  `replies` is a Python int difference,
so it is modelled as `Int`. -/
structure PageStats where
  total_comments : Int
  top_level_comments : Int
  replies : Int
deriving DecidableEq, Repr

/-- The database computation of `get_page_stats` (comment_service.py lines
432-452): total non-deleted comments of the page, non-deleted top-level
comments of the page, and their difference.  The cache wrapper only replays
previously computed results of this same function and is not modelled. -/
def get_page_stats (rows : List CommentRow) (page : String) : PageStats :=
  let total := (rows.filter (fun c => decide (c.page = page) && !c.is_deleted)).length
  let top := (rows.filter (fun c => decide (c.page = page) &&
    decide (c.parent_id = none) && !c.is_deleted)).length
  { total_comments := (total : Int)
    top_level_comments := (top : Int)
    replies := (total : Int) - (top : Int) }

/-- C9: for every page and every table state (in particular every state
reachable by creates and soft-deletes), `get_page_stats` satisfies
`total_comments = top_level_comments + replies`, and the derived reply count
is non-negative because the top-level rows are a sub-collection of the
counted rows. -/
theorem get_page_stats_identity (rows : List CommentRow) (page : String) :
    (get_page_stats rows page).total_comments
        = (get_page_stats rows page).top_level_comments + (get_page_stats rows page).replies
    ∧ 0 ≤ (get_page_stats rows page).replies := by
  constructor
  · simp [get_page_stats]
  · simp only [get_page_stats, sub_nonneg, Int.ofNat_le, Nat.cast_le]
    have hsub : (rows.filter (fun c => decide (c.page = page) &&
        decide (c.parent_id = none) && !c.is_deleted)).length
        ≤ (rows.filter (fun c => decide (c.page = page) && !c.is_deleted)).length := by
      induction rows with
      | nil => simp
      | cons r t iht =>
        by_cases h1 : (decide (r.page = page) && decide (r.parent_id = none) && !r.is_deleted) = true
        · have h2 : (decide (r.page = page) && !r.is_deleted) = true := by
            simp only [Bool.and_eq_true] at h1 ⊢
            exact ⟨h1.1.1, h1.2⟩
          simp [List.filter_cons, h1, h2]
          omega
        · by_cases h2 : (decide (r.page = page) && !r.is_deleted) = true
          · simp [List.filter_cons, h1, h2]
            omega
          · simp [List.filter_cons, h1, h2]
            exact iht
    exact hsub

/-! ## C10: soft delete is idempotent at the service layer -/

/-- Error taxonomy of the service layer (app/core/exceptions.py), restricted
to the exceptions `create_comment` / `delete_comment` raise. -/
inductive SvcError where
  | notFound
  | validation
  | dbError
deriving DecidableEq, Repr

/-- `delete_comment` (comment_service.py lines 396-421): look the row up by
id with NO `is_deleted` filter; raise `NotFoundError` if absent, else run
`UPDATE comments SET is_deleted = true WHERE id = :id` and return `True`. -/
def delete_comment (rows : List CommentRow) (cid : Nat) :
    Except SvcError Bool × List CommentRow :=
  match findFirst rows (fun c => decide (c.id = cid)) with
  | none => (Except.error SvcError.notFound, rows)
  | some _ =>
    (Except.ok true,
      rows.map (fun c => if c.id = cid then { c with is_deleted := true } else c))

/-- `get_comment_by_id` (comment_service.py lines 348-358): look the row up
by id, filtering out soft-deleted rows. -/
def get_comment_by_id (rows : List CommentRow) (cid : Nat) : Option CommentRow :=
  findFirst rows (fun c => decide (c.id = cid) && !c.is_deleted)

/-- C10: soft-deleting is idempotent at the service layer: on an id whose
row exists but already has `is_deleted = true`, `delete_comment` succeeds and
returns `True` (it looks the row up without filtering on the soft-delete
flag) and never raises `NotFoundError` — even though `get_comment_by_id` on
the same id returns no comment because it filters soft-deleted rows out. -/
theorem delete_comment_idempotent (rows : List CommentRow) (cid : Nat)
    (hex : ∃ r ∈ rows, r.id = cid)
    (hdel : ∀ r ∈ rows, r.id = cid → r.is_deleted = true) :
    (delete_comment rows cid).1 = Except.ok true
    ∧ get_comment_by_id rows cid = none := by
  obtain ⟨r, hr, hid⟩ := hex
  constructor
  · have hmem : r ∈ rows.filter (fun c => decide (c.id = cid)) :=
      List.mem_filter.mpr ⟨hr, by simp [hid]⟩
    unfold delete_comment findFirst
    cases hhead : (rows.filter (fun c => decide (c.id = cid))).head? with
    | none =>
      rw [List.head?_eq_none_iff] at hhead
      rw [hhead] at hmem
      simp at hmem
    | some r0 => simp
  · unfold get_comment_by_id findFirst
    have hnil : rows.filter (fun c => decide (c.id = cid) && !c.is_deleted) = [] := by
      rw [List.filter_eq_nil]
      intro c hc
      by_cases hcid : c.id = cid
      · simp [hcid, hdel c hc hcid]
      · simp [hcid]
    rw [hnil]
    rfl

/-- Witness for `delete_comment_idempotent`: a one-row table whose single
row is already soft-deleted. -/
theorem delete_comment_idempotent_witness :
    (delete_comment [⟨1, "p", "hello", none, true⟩] 1).1 = Except.ok true
    ∧ get_comment_by_id [⟨1, "p", "hello", none, true⟩] 1 = none :=
  delete_comment_idempotent [⟨1, "p", "hello", none, true⟩] 1
    (by decide) (by decide)

/-! ## The sliding-window rate limiter (`CustomLimiter._check_rate_limit`)

The redis sorted set for one key is a set of integer timestamps: the code
adds the member `str(current_time)` with score `current_time`, so the member
is determined by its score and the structure is a set of `Nat`.  The pipeline
is: `zremrangebyscore key 0 (now - window)`, `zadd key {str(now): now}`,
`zcard key`, `expire key window`. -/

/-- Rate-limit info dictionary built by `_check_rate_limit`
(rate_limiter.py lines 98-107).  `current_count` and `retry_after` are
`Option` because the redis-failure branch omits them. -/
structure RateLimitInfo where
  limit : Nat
  remaining : Nat
  reset_time : Nat
  current_count : Option Nat
  retry_after : Option Nat
deriving DecidableEq, Repr

/-- `zremrangebyscore key 0 (t - window)`: drop every timestamp `x` with
`x ≤ t - window` (over the integers, hence `x + window ≤ t`). -/
def rlEvict (state : List Nat) (t window : Nat) : List Nat :=
  state.filter (fun x => !(decide (x + window ≤ t)))

/-- `zadd key {str(t): t}`: insert `t` as a set member (re-adding an existing
member leaves the set unchanged). -/
def rlAdd (state : List Nat) (t : Nat) : List Nat :=
  if t ∈ state then state else state ++ [t]

/-- The body of the `try` block of `_check_rate_limit` (rate_limiter.py
lines 71-110) at current time `t`: evict, record, count; fail iff the count
exceeds the limit, with `remaining = max(0, limit - count)`,
`reset_time = t + window`, and `retry_after = window` on failure.  Returns
the (passed, info) pair together with the new sorted-set state. -/
def check_rate_limit_ok (state : List Nat) (t limit window : Nat) :
    (Bool × RateLimitInfo) × List Nat :=
  let recorded := rlAdd (rlEvict state t window) t
  let current_count := recorded.length
  ((if limit < current_count then
      (false, ⟨limit, limit - current_count, t + window, some current_count, some window⟩)
    else
      (true, ⟨limit, limit - current_count, t + window, some current_count, none⟩)),
   recorded)

/-- `_check_rate_limit` including its exception handler (rate_limiter.py
lines 112-115): if the redis pipeline raises, the request is allowed with
`{limit, remaining: limit, reset_time: 0}`. -/
def check_rate_limit (substrate : Except String (List Nat)) (t limit window : Nat) :
    (Bool × RateLimitInfo) × Option (List Nat) :=
  match substrate with
  | Except.error _ => ((true, ⟨limit, limit, 0, none, none⟩), none)
  | Except.ok st =>
    let r := check_rate_limit_ok st t limit window
    (r.1, some r.2)

/-- C8: for every key state, limit and window, if the cache substrate raises
during the check, `_check_rate_limit` returns passed = True (the request is
allowed) instead of propagating the error or denying the request. -/
theorem check_rate_limit_fails_open (e : String) (t limit window : Nat) :
    (check_rate_limit (Except.error e) t limit window).1.1 = true := rfl

/-! ## C3: the 4-calls-in-a-window behaviour -/

/-- Sorted-set state after a sequence of checks against the same key,
starting from an absent key. -/
def rlState (limit window : Nat) (times : List Nat) : List Nat :=
  times.foldl (fun st t => (check_rate_limit_ok st t limit window).2) []

/-- Result of one more check after the calls in `times`. -/
def rlCall (limit window : Nat) (times : List Nat) (t : Nat) : Bool × RateLimitInfo :=
  (check_rate_limit_ok (rlState limit window times) t limit window).1

theorem check_rate_limit_ok_state (st : List Nat) (t l w : Nat) :
    (check_rate_limit_ok st t l w).2 = rlAdd (rlEvict st t w) t := rfl

theorem rlEvict_keep {st : List Nat} {t w : Nat} (h : ∀ x ∈ st, t < x + w) :
    rlEvict st t w = st := by
  rw [rlEvict, List.filter_eq_self]
  intro a ha
  have := h a ha
  simp only [Bool.not_eq_true', decide_eq_false_iff_not]
  omega

theorem rlEvict_all {st : List Nat} {t w : Nat} (h : ∀ x ∈ st, x + w ≤ t) :
    rlEvict st t w = [] := by
  rw [rlEvict, List.filter_eq_nil]
  intro a ha
  have := h a ha
  simp only [Bool.not_eq_true', decide_eq_false_iff_not, Classical.not_not]
  omega

theorem rlAdd_new {st : List Nat} {t : Nat} (h : t ∉ st) : rlAdd st t = st ++ [t] := by
  rw [rlAdd, if_neg h]

/-- C3 (counterexample): the claim fails for call sequences that repeat a
timestamp (second-granularity), because `zadd` stores the member
`str(current_time)` and therefore deduplicates same-second calls: with
limit = 3 and window = 300, after calls at times 100, 100, 101 — all within
the window — a 4th call at 102 still passes. -/
theorem rate_limit_fourth_call_passes_with_duplicate_times :
    (rlCall 3 300 [100, 100, 101] 102).1 = true
    ∧ (rlCall 3 300 [100, 100, 101] 102).2.current_count = some 3 := by
  refine ⟨by decide, by decide⟩

/-- C3 (amended): with limit = 3 and window = 300 seconds, for every call
sequence at DISTINCT (strictly increasing integer-second) times t1 t2 t3 t4
on the same key, with all four inside one trailing window, the 4th call
fails: passed = False, remaining = 0, and a positive retry-after of 300;
and any later call made after the window has elapsed since all earlier
calls succeeds. -/
theorem rate_limit_fourth_distinct_call_fails (t1 t2 t3 t4 : Nat)
    (h12 : t1 < t2) (h23 : t2 < t3) (h34 : t3 < t4) (hw : t4 < t1 + 300) :
    (rlCall 3 300 [t1, t2, t3] t4).1 = false
    ∧ (rlCall 3 300 [t1, t2, t3] t4).2.remaining = 0
    ∧ (rlCall 3 300 [t1, t2, t3] t4).2.retry_after = some 300
    ∧ ∀ t5, t4 + 300 ≤ t5 →
        (check_rate_limit_ok
          (check_rate_limit_ok (rlState 3 300 [t1, t2, t3]) t4 3 300).2
          t5 3 300).1.1 = true := by
  have s1 : rlAdd (rlEvict [] t1 300) t1 = [t1] := by
    rw [show rlEvict [] t1 300 = [] from rfl, rlAdd_new (List.not_mem_nil t1)]
    rfl
  have k2 : ∀ x ∈ [t1], t2 < x + 300 := by intro x hx; simp at hx; omega
  have m2 : t2 ∉ [t1] := by simp; omega
  have s2 : rlAdd (rlEvict [t1] t2 300) t2 = [t1, t2] := by
    rw [rlEvict_keep k2, rlAdd_new m2]
    rfl
  have k3 : ∀ x ∈ [t1, t2], t3 < x + 300 := by
    intro x hx; simp at hx; rcases hx with h | h <;> omega
  have m3 : t3 ∉ [t1, t2] := by simp; constructor <;> omega
  have s3 : rlAdd (rlEvict [t1, t2] t3 300) t3 = [t1, t2, t3] := by
    rw [rlEvict_keep k3, rlAdd_new m3]
    rfl
  have hst : rlState 3 300 [t1, t2, t3] = [t1, t2, t3] := by
    simp only [rlState, List.foldl_cons, List.foldl_nil, check_rate_limit_ok_state]
    rw [s1, s2, s3]
  have k4 : ∀ x ∈ [t1, t2, t3], t4 < x + 300 := by
    intro x hx; simp at hx; rcases hx with h | h | h <;> omega
  have m4 : t4 ∉ [t1, t2, t3] := by
    simp; refine ⟨by omega, by omega, by omega⟩
  have hrec : rlAdd (rlEvict [t1, t2, t3] t4 300) t4 = [t1, t2, t3, t4] := by
    rw [rlEvict_keep k4, rlAdd_new m4]
    rfl
  have h4 : check_rate_limit_ok [t1, t2, t3] t4 3 300
      = ((false, ⟨3, 0, t4 + 300, some 4, some 300⟩), [t1, t2, t3, t4]) := by
    rw [check_rate_limit_ok]
    simp only [hrec, List.length_cons, List.length_nil]
    norm_num
  refine ⟨?_, ?_, ?_, ?_⟩
  · rw [rlCall, hst, h4]
  · rw [rlCall, hst, h4]
  · rw [rlCall, hst, h4]
  · intro t5 h5
    rw [hst, h4]
    show (check_rate_limit_ok [t1, t2, t3, t4] t5 3 300).1.1 = true
    rw [check_rate_limit_ok]
    rw [rlEvict_all (by intro x hx; simp at hx; rcases hx with h | h | h | h <;> omega),
      rlAdd_new (by simp)]
    norm_num

/-- Witness for `rate_limit_fourth_distinct_call_fails` at the concrete call
times 0, 1, 2, 3 and a follow-up call at 303. -/
theorem rate_limit_fourth_distinct_call_fails_witness :
    (rlCall 3 300 [0, 1, 2] 3).1 = false
    ∧ (rlCall 3 300 [0, 1, 2] 3).2.remaining = 0
    ∧ (rlCall 3 300 [0, 1, 2] 3).2.retry_after = some 300
    ∧ (check_rate_limit_ok
        (check_rate_limit_ok (rlState 3 300 [0, 1, 2]) 3 3 300).2
        303 3 300).1.1 = true :=
  have h := rate_limit_fourth_distinct_call_fails 0 1 2 3
    (by decide) (by decide) (by decide) (by decide)
  ⟨h.1, h.2.1, h.2.2.1, h.2.2.2 303 (by decide)⟩

/-! ## Spam checks and the comment creation path -/

/-- The fixed blacklist of `SecurityUtils.check_spam_content`
(helpers.py lines 39-43). -/
def spam_keywords : List String :=
  ["广告", "推广", "spam", "色情", "赌博", "借贷", "贷款",
   "微信", "QQ", "加我", "联系我", "http://", "https://",
   "点击", "优惠", "打折", "免费", "赚钱"]

/-- Number of distinct blacklist terms occurring in the lower-cased content
(`sum(1 for keyword in spam_keywords if keyword in content_lower)`). -/
def spam_count (content : String) : Nat :=
  (spam_keywords.filter (fun k => pyIn k (pyLower content))).length

/-- `SecurityUtils.check_spam_content`: spam iff at least two blacklist
terms occur. -/
def check_spam_content (content : String) : Bool :=
  decide (2 ≤ spam_count content)

/-- The separate 5-term blacklist hard-coded in the pydantic validator
`CommentBase.validate_content` (schemas/comment.py line 33). -/
def schema_spam_keywords : List String := ["广告", "推广", "spam", "色情", "赌博"]

/-- Whether the schema-level validator finds any of its 5 keywords in the
lower-cased content. -/
def schemaSpamHit (v : String) : Bool :=
  schema_spam_keywords.any (fun k => pyIn k (pyLower v))

/-- Python's `str.strip()` (whitespace from both ends), on the character
list model. -/
def pyStrip (s : String) : String :=
  ⟨((s.data.dropWhile Char.isWhitespace).reverse.dropWhile Char.isWhitespace).reverse⟩

/-- `CommentBase.validate_content` (schemas/comment.py lines 26-39): reject
blank content, reject content containing ANY single one of the 5 schema
keywords, else return the stripped content. -/
def validate_content (v : String) : Except String String :=
  if pyStrip v = "" then Except.error "评论内容不能为空"
  else if schemaSpamHit v then Except.error "评论内容包含不当内容"
  else Except.ok (pyStrip v)

/-- One escaped character of `html.escape` (with quote=True). -/
def htmlEscapeChar (c : Char) : List Char :=
  if c = '&' then "&amp;".data
  else if c = '<' then "&lt;".data
  else if c = '>' then "&gt;".data
  else if c = '"' then "&quot;".data
  else if c = '\'' then "&#x27;".data
  else [c]

/-- `SecurityUtils.sanitize_content`: `html.escape(content.strip())`. -/
def sanitize_content (content : String) : String :=
  ⟨((pyStrip content).data.map htmlEscapeChar).join⟩

/-- Database handle: table rows plus the autoincrement counter (Postgres
sequences start at 1). -/
structure CommentDB where
  rows : List CommentRow
  next_id : Nat
deriving DecidableEq, Repr

/-- A fresh database. -/
def emptyDB : CommentDB := ⟨[], 1⟩

/-- The foreign-key constraint `parent_id REFERENCES comments(id)`
(models/comment.py line 28), enforced by the database at commit time. -/
def fkOk (rows : List CommentRow) (pid : Option Nat) : Bool :=
  match pid with
  | none => true
  | some p => rows.any (fun c => decide (c.id = p))

/-- The persistence step of `create_comment` (db.add / db.commit, lines
129-145): commit fails on a foreign-key violation, which the service's
`except` clause converts into a rollback plus `DatabaseException`. -/
def persist_comment (db : CommentDB) (page content : String) (parent_id : Option Nat) :
    Except SvcError CommentRow × CommentDB :=
  if fkOk db.rows parent_id then
    let row : CommentRow :=
      { id := db.next_id, page := page, content := content,
        parent_id := parent_id, is_deleted := false }
    (Except.ok row, ⟨db.rows ++ [row], db.next_id + 1⟩)
  else (Except.error SvcError.dbError, db)

/-- Steps 2-3 of `create_comment`: the spam check (lines 120-122) followed
by sanitisation and persistence. -/
def spam_then_persist (db : CommentDB) (page content : String) (parent_id : Option Nat) :
    Except SvcError CommentRow × CommentDB :=
  if check_spam_content content then (Except.error SvcError.validation, db)
  else persist_comment db page (sanitize_content content) parent_id

/-- `SimplifiedCommentService.create_comment` (comment_service.py lines
96-158).  The guard is Python's `if comment_data.parent_id:` — truthiness —
so both `None` and `0` skip the parent validation (lines 106-118). -/
def create_comment (db : CommentDB) (page content : String) (parent_id : Option Nat) :
    Except SvcError CommentRow × CommentDB :=
  match parent_id with
  | none => spam_then_persist db page content none
  | some p =>
    if p = 0 then spam_then_persist db page content (some p)
    else
      match findFirst db.rows (fun c => decide (c.id = p) && !c.is_deleted) with
      | none => (Except.error SvcError.notFound, db)
      | some par =>
        if par.page = page then spam_then_persist db page content (some p)
        else (Except.error SvcError.validation, db)

/-- The whole creation path as seen by a client: the pydantic layer's length
bounds and `validate_content` (schemas/comment.py), then the service's
`create_comment`.  Username/email/page validation does not interact with any
claim and is omitted. -/
def submit_comment (db : CommentDB) (page content : String) (parent_id : Option Nat) :
    Except SvcError CommentRow × CommentDB :=
  if content.length < 10 ∨ 2000 < content.length then (Except.error SvcError.validation, db)
  else
    match validate_content content with
    | Except.error _ => (Except.error SvcError.validation, db)
    | Except.ok v => create_comment db page v parent_id

theorem head?_some_mem {α : Type} {l : List α} {a : α} (h : l.head? = some a) : a ∈ l := by
  cases l with
  | nil => simp at h
  | cons x t =>
    simp only [List.head?_cons, Option.some.injEq] at h
    exact h ▸ List.mem_cons_self x t

theorem findFirst_some {rows : List CommentRow} {p : CommentRow → Bool} {r : CommentRow}
    (h : findFirst rows p = some r) : r ∈ rows ∧ p r = true := by
  have hmem := head?_some_mem h
  exact List.mem_filter.mp hmem

/-- C7 (counterexample): a submission with the non-null parent id 0 on an
empty table is rejected, but with the generic database error from the
foreign-key violation, not with a not-found error: Python truthiness makes
`if comment_data.parent_id:` skip the parent lookup for 0. -/
theorem create_comment_parent_zero_not_notFound :
    create_comment emptyDB "p" "hello world" (some 0)
      = (Except.error SvcError.dbError, emptyDB)
    ∧ SvcError.dbError ≠ SvcError.notFound := by
  refine ⟨by decide, by decide⟩

/-- C7 (amended): for a submission with non-null `parent_id = p`, on any
table whose ids are positive (as autoincrement guarantees):
with `p ≠ 0`, an absent-or-soft-deleted parent is rejected with a not-found
error and a same-id live parent on a different page is rejected with a
cross-page validation error; with `p = 0` the service-level parent check is
skipped (Python truthiness) and a non-spam submission fails at the
foreign-key constraint with a generic database error instead; in every
rejection case the table is unchanged; and creation succeeds only if a
comment with id p exists, is not soft-deleted, and has the same page. -/
theorem create_comment_reply_isolation (db : CommentDB) (page content : String) (p : Nat)
    (hwf : ∀ r ∈ db.rows, 1 ≤ r.id) :
    ((p ≠ 0 ∧ findFirst db.rows (fun c => decide (c.id = p) && !c.is_deleted) = none) →
      create_comment db page content (some p) = (Except.error SvcError.notFound, db))
    ∧ (∀ par, p ≠ 0 →
        findFirst db.rows (fun c => decide (c.id = p) && !c.is_deleted) = some par →
        par.page ≠ page →
        create_comment db page content (some p) = (Except.error SvcError.validation, db))
    ∧ ((p = 0 ∧ check_spam_content content = false) →
        create_comment db page content (some p) = (Except.error SvcError.dbError, db))
    ∧ (∀ r db2, create_comment db page content (some p) = (Except.ok r, db2) →
        ∃ par ∈ db.rows, par.id = p ∧ par.is_deleted = false ∧ par.page = page) := by
  have hfk0 : fkOk db.rows (some 0) = false := by
    simp only [fkOk, List.any_eq_false]
    intro r hr
    have := hwf r hr
    simp only [decide_eq_true_eq]
    omega
  refine ⟨?_, ?_, ?_, ?_⟩
  · rintro ⟨hp, hnone⟩
    simp only [create_comment, if_neg hp, hnone]
  · intro par hp hsome hpg
    simp only [create_comment, if_neg hp, hsome, if_neg hpg]
  · rintro ⟨hp, hspam⟩
    subst hp
    simp only [create_comment, if_pos rfl, spam_then_persist, hspam, Bool.false_eq_true,
      if_false, persist_comment, hfk0, if_neg]
    simp
  · intro r db2 h
    by_cases hp : p = 0
    · subst hp
      simp only [create_comment, if_pos rfl, spam_then_persist] at h
      by_cases hs : check_spam_content content = true
      · rw [if_pos hs] at h
        simp at h
      · rw [if_neg hs] at h
        rw [persist_comment, hfk0] at h
        simp at h
    · simp only [create_comment, if_neg hp] at h
      cases hf : findFirst db.rows (fun c => decide (c.id = p) && !c.is_deleted) with
      | none =>
        rw [hf] at h
        simp at h
      | some par =>
        rw [hf] at h
        by_cases hpg : par.page = page
        · obtain ⟨hmem, hpred⟩ := findFirst_some hf
          simp only [Bool.and_eq_true, decide_eq_true_eq, Bool.not_eq_true'] at hpred
          exact ⟨par, hmem, hpred.1, hpred.2, hpg⟩
        · simp [hpg] at h

/-- Witness for `create_comment_reply_isolation`: a reply to the missing
comment 5 on an empty table, rejected with not-found. -/
theorem create_comment_reply_isolation_witness :
    create_comment emptyDB "p" "hello world" (some 5)
      = (Except.error SvcError.notFound, emptyDB) :=
  (create_comment_reply_isolation emptyDB "p" "hello world" 5 (by decide)).1
    ⟨by decide, rfl⟩

/-- C5 (counterexample): content containing exactly one blacklist term is
not always accepted: the pydantic validator `CommentBase.validate_content`
rejects content containing any single one of its 5 keywords, so a submission
whose content has exactly 1 blacklist term ("赌博") is rejected with a
validation error even though the claim says 0-or-1-term content is
accepted. -/
theorem creation_path_single_term_rejected :
    spam_count "今天我们讨论赌博问题的研究" = 1
    ∧ (submit_comment emptyDB "p" "今天我们讨论赌博问题的研究" none).1
        = Except.error SvcError.validation := by
  refine ⟨by decide, by decide⟩

/-- C5 (amended): over the whole creation path (pydantic validation then the
service), for a top-level submission with in-bounds, already-stripped
content: the submission is rejected with a validation error iff the content
contains at least 2 terms of the service blacklist (case-insensitive
substring match) OR at least 1 term of the 5-keyword schema blacklist
(广告/推广/spam/色情/赌博); in particular 0-or-1-term content avoiding the
schema keywords is accepted. -/
theorem creation_path_spam_gate (db : CommentDB) (page content : String)
    (htrim : pyStrip content = content)
    (hlen1 : 10 ≤ content.length) (hlen2 : content.length ≤ 2000) :
    (submit_comment db page content none).1 = Except.error SvcError.validation
      ↔ (schemaSpamHit content = true ∨ 2 ≤ spam_count content) := by
  have hne : pyStrip content ≠ "" := by
    rw [htrim]
    intro h
    rw [h] at hlen1
    simp [String.length] at hlen1
  rw [submit_comment, if_neg (by omega), validate_content, if_neg hne]
  by_cases hs : schemaSpamHit content = true
  · rw [if_pos hs]
    simp [hs]
  · rw [if_neg hs, htrim]
    simp only [create_comment, spam_then_persist]
    by_cases hc : check_spam_content content = true
    · rw [if_pos hc]
      have : 2 ≤ spam_count content := of_decide_eq_true hc
      simp [this]
    · rw [if_neg hc]
      have h2 : ¬ 2 ≤ spam_count content := of_decide_eq_false (by
        revert hc
        cases h : check_spam_content content <;> simp [check_spam_content] at * <;> omega)
      rw [persist_comment]
      have hfk : fkOk db.rows none = true := rfl
      rw [hfk, if_pos rfl]
      simp [hs, h2]

/-- Witness for `creation_path_spam_gate`: an ordinary keyword-free comment
is accepted (neither side of the iff holds). -/
theorem creation_path_spam_gate_witness :
    ((submit_comment emptyDB "p" "这是一条完全正常的评论内容" none).1
        = Except.error SvcError.validation
      ↔ (schemaSpamHit "这是一条完全正常的评论内容" = true
          ∨ 2 ≤ spam_count "这是一条完全正常的评论内容")) :=
  creation_path_spam_gate emptyDB "p" "这是一条完全正常的评论内容"
    (by decide) (by decide) (by decide)

/-! ## The cursor codec (`_encode_cursor` / `_decode_cursor`)

The codec wraps `{'value': v, 'id': id}` in JSON and base64.  JSON+base64 is
a bijection on the values involved (ints and strings), so the transport is
modelled as the identity on the structured payload; the interesting
behaviour — datetimes being serialised via `isoformat()` on encode and every
string being offered to `datetime.fromisoformat()` on decode — is modelled
exactly.  `fromisoformat` is modelled after its CPython 3.7-3.10
implementation, whose documented grammar is the inverse of `isoformat`:
`YYYY-MM-DD`, optionally followed by any single separator character and a
time `HH[:MM[:SS[.fff[fff]]]]`, optionally followed by a UTC offset
`+HH:MM[:SS[.ffffff]]` or `-HH:MM[:SS[.ffffff]]` (sub-parsed with the same
time grammar restricted to the lengths 5, 8 and 15, components bounded only
by the resulting offset being under 24 hours).  CPython 3.11 widened the
parser to further ISO 8601 forms; every string it additionally accepts also
fails the round trip, so the safe-string set proved below is stated for the
3.7-3.10 grammar. -/

/-- A parsed UTC offset: the sign character and the `HH:MM[:SS[.ffffff]]`
components as written (CPython bounds only the total, not the fields). -/
structure TzOff where
  neg : Bool
  hh : Nat
  mm : Nat
  ss : Nat
  us : Nat
deriving DecidableEq, Repr

/-- A Python `datetime`; `tz = none` is a naive value, `tz = some o` an
aware value with fixed UTC offset `o`. -/
structure PyDateTime where
  year : Nat
  month : Nat
  day : Nat
  hour : Nat
  minute : Nat
  second : Nat
  microsecond : Nat
  tz : Option TzOff
deriving DecidableEq, Repr

/-- Leap-year rule used by `datetime`. -/
def isLeap (y : Nat) : Bool := (y % 4 == 0 && y % 100 != 0) || y % 400 == 0

/-- Days in a month, as validated by the `datetime` constructor. -/
def daysInMonth (y m : Nat) : Nat :=
  if m = 2 then (if isLeap y then 29 else 28)
  else if m = 4 ∨ m = 6 ∨ m = 9 ∨ m = 11 then 30
  else 31

/-- The `datetime` constructor's range checks on the date/time fields. -/
def PyDateTime.Valid (d : PyDateTime) : Prop :=
  1 ≤ d.year ∧ d.year ≤ 9999 ∧ 1 ≤ d.month ∧ d.month ≤ 12 ∧
  1 ≤ d.day ∧ d.day ≤ daysInMonth d.year d.month ∧
  d.hour ≤ 23 ∧ d.minute ≤ 59 ∧ d.second ≤ 59 ∧ d.microsecond ≤ 999999

instance (d : PyDateTime) : Decidable d.Valid := by
  unfold PyDateTime.Valid
  infer_instance

/-- Two zero-padded decimal digits (`%02d`). -/
def pad2 (n : Nat) : List Char := [Nat.digitChar (n / 10), Nat.digitChar (n % 10)]

/-- Four zero-padded decimal digits (`%04d`). -/
def pad4 (n : Nat) : List Char :=
  [Nat.digitChar (n / 1000), Nat.digitChar (n / 100 % 10),
   Nat.digitChar (n / 10 % 10), Nat.digitChar (n % 10)]

/-- Six zero-padded decimal digits (`%06d`). -/
def pad6 (n : Nat) : List Char :=
  [Nat.digitChar (n / 100000), Nat.digitChar (n / 10000 % 10),
   Nat.digitChar (n / 1000 % 10), Nat.digitChar (n / 100 % 10),
   Nat.digitChar (n / 10 % 10), Nat.digitChar (n % 10)]

/-- The UTC-offset suffix `isoformat` prints for an aware datetime:
`±HH:MM`, with `:SS` appended when seconds or microseconds are non-zero and
`.ffffff` when microseconds are non-zero. -/
def tzChars (o : TzOff) : List Char :=
  (if o.neg then '-' else '+') :: pad2 o.hh ++ ':' :: pad2 o.mm ++
  (if o.ss = 0 ∧ o.us = 0 then []
   else ':' :: pad2 o.ss ++ (if o.us = 0 then [] else '.' :: pad6 o.us))

/-- `datetime.isoformat()`: `YYYY-MM-DDTHH:MM:SS`, with `.ffffff` appended
exactly when the microsecond field is non-zero, and the UTC-offset suffix
for aware values. -/
def isoChars (d : PyDateTime) : List Char :=
  pad4 d.year ++ '-' :: pad2 d.month ++ '-' :: pad2 d.day ++
  'T' :: pad2 d.hour ++ ':' :: pad2 d.minute ++ ':' :: pad2 d.second ++
  (if d.microsecond = 0 then [] else '.' :: pad6 d.microsecond) ++
  (match d.tz with
   | none => []
   | some o => tzChars o)

/-- `datetime.isoformat()` as a string. -/
def isoformat (d : PyDateTime) : String := ⟨isoChars d⟩

/-- Numeric value of one parsed digit character. -/
def d2n (c : Char) : Nat := c.toNat - 48

/-- A parsed UTC offset in microseconds (fields unbounded; CPython lets
`timedelta` normalise them). -/
def tzTotalUs (o : TzOff) : Nat :=
  o.hh * 3600000000 + o.mm * 60000000 + o.ss * 1000000 + o.us

/-- The range check `timezone` applies to a parsed offset: strictly less
than 24 hours in magnitude. -/
def tzOkB : Option TzOff → Bool
  | none => true
  | some o => decide (tzTotalUs o < 86400000000)

/-- Construct a `datetime`, applying the constructor's range validation and
the `timezone` offset bound. -/
def mkDT (y mo dy h mi s u : Nat) (tz : Option TzOff) : Option PyDateTime :=
  if 1 ≤ y ∧ y ≤ 9999 ∧ 1 ≤ mo ∧ mo ≤ 12 ∧ 1 ≤ dy ∧ dy ≤ daysInMonth y mo ∧
      h ≤ 23 ∧ mi ≤ 59 ∧ s ≤ 59 ∧ u ≤ 999999 ∧ tzOkB tz = true then
    some ⟨y, mo, dy, h, mi, s, u, tz⟩
  else none

/-- The date part of `fromisoformat`: exactly `YYYY-MM-DD` (zero-padded,
`-` separators), returning the components and the unconsumed remainder. -/
def parseDate : List Char → Option ((Nat × Nat × Nat) × List Char)
  | y1 :: y2 :: y3 :: y4 :: c1 :: m1 :: m2 :: c2 :: d1 :: d2 :: rest =>
    if c1 = '-' ∧ c2 = '-' ∧ ([y1, y2, y3, y4, m1, m2, d1, d2].all Char.isDigit) then
      some ((1000 * d2n y1 + 100 * d2n y2 + 10 * d2n y3 + d2n y4,
             10 * d2n m1 + d2n m2, 10 * d2n d1 + d2n d2), rest)
    else none
  | _ => none

/-- CPython's `parse_hh_mm_ss_ff` on a whole string: `HH`, `HH:MM`,
`HH:MM:SS`, `HH:MM:SS.fff` (3-digit fraction scaled to microseconds) or
`HH:MM:SS.ffffff`; anything else raises.  Components are not range-checked
here (the `datetime`/`timedelta` constructors do that). -/
def parseHMSF : List Char → Option (Nat × Nat × Nat × Nat)
  | [h1, h2] =>
    if [h1, h2].all Char.isDigit then
      some (10 * d2n h1 + d2n h2, 0, 0, 0)
    else none
  | [h1, h2, c1, m1, m2] =>
    if c1 = ':' ∧ ([h1, h2, m1, m2].all Char.isDigit) then
      some (10 * d2n h1 + d2n h2, 10 * d2n m1 + d2n m2, 0, 0)
    else none
  | [h1, h2, c1, m1, m2, c2, s1, s2] =>
    if c1 = ':' ∧ c2 = ':' ∧ ([h1, h2, m1, m2, s1, s2].all Char.isDigit) then
      some (10 * d2n h1 + d2n h2, 10 * d2n m1 + d2n m2, 10 * d2n s1 + d2n s2, 0)
    else none
  | [h1, h2, c1, m1, m2, c2, s1, s2, dot, f1, f2, f3] =>
    if c1 = ':' ∧ c2 = ':' ∧ dot = '.' ∧
        ([h1, h2, m1, m2, s1, s2, f1, f2, f3].all Char.isDigit) then
      some (10 * d2n h1 + d2n h2, 10 * d2n m1 + d2n m2, 10 * d2n s1 + d2n s2,
        (100 * d2n f1 + 10 * d2n f2 + d2n f3) * 1000)
    else none
  | [h1, h2, c1, m1, m2, c2, s1, s2, dot, f1, f2, f3, f4, f5, f6] =>
    if c1 = ':' ∧ c2 = ':' ∧ dot = '.' ∧
        ([h1, h2, m1, m2, s1, s2, f1, f2, f3, f4, f5, f6].all Char.isDigit) then
      some (10 * d2n h1 + d2n h2, 10 * d2n m1 + d2n m2, 10 * d2n s1 + d2n s2,
        100000 * d2n f1 + 10000 * d2n f2 + 1000 * d2n f3 + 100 * d2n f4
          + 10 * d2n f5 + d2n f6)
    else none
  | _ => none

/-- Split the time string at the first `'+'` or `'-'`, which CPython treats
as the start of the UTC offset. -/
def splitTz : List Char → List Char × Option (Char × List Char)
  | [] => ([], none)
  | c :: rest =>
    if c = '+' ∨ c = '-' then ([], some (c, rest))
    else ((c :: (splitTz rest).1), (splitTz rest).2)

/-- `datetime.fromisoformat` (CPython 3.7-3.10): parse `YYYY-MM-DD`; if
anything follows, skip one separator character (any character) and parse
the remainder as time plus optional offset, where the offset part after the
sign must have length 5, 8 or 15 and the resulting offset must be under 24
hours; reject everything else (`ValueError`). -/
def parseIso (l : List Char) : Option PyDateTime :=
  match parseDate l with
  | none => none
  | some ((y, mo, dy), rest) =>
    match rest with
    | [] => mkDT y mo dy 0 0 0 0 none
    | _ :: tfull =>
      match splitTz tfull with
      | (timestr, tzopt) =>
        match parseHMSF timestr with
        | none => none
        | some (hh, mi, ss, us) =>
          match tzopt with
          | none => mkDT y mo dy hh mi ss us none
          | some (sgn, tzrest) =>
            if tzrest.length = 5 ∨ tzrest.length = 8 ∨ tzrest.length = 15 then
              match parseHMSF tzrest with
              | none => none
              | some (oh, om, os, ou) =>
                mkDT y mo dy hh mi ss us (some ⟨sgn == '-', oh, om, os, ou⟩)
            else none

/-- A sort-column value carried by a cursor: timestamp, integer, or string. -/
inductive CursorValue where
  | int (n : Int)
  | str (s : String)
  | dt (d : PyDateTime)
deriving DecidableEq, Repr

/-- A JSON scalar as stored in the cursor payload. -/
inductive JVal where
  | jint (n : Int)
  | jstr (s : String)
deriving DecidableEq, Repr

/-- The decoded cursor payload `{'value': ..., 'id': ...}`. -/
structure CursorData where
  value : JVal
  id : Nat
deriving DecidableEq, Repr

/-- `_encode_cursor` (comment_service.py lines 32-46): a datetime value is
replaced by its `isoformat()` string, then the payload is serialised
(JSON+base64, a bijection on this domain, modelled as identity). -/
def encode_cursor (v : CursorValue) (comment_id : Nat) : CursorData :=
  match v with
  | CursorValue.dt d => ⟨JVal.jstr (isoformat d), comment_id⟩
  | CursorValue.int n => ⟨JVal.jint n, comment_id⟩
  | CursorValue.str s => ⟨JVal.jstr s, comment_id⟩

/-- `_decode_cursor` (comment_service.py lines 48-63): after
deserialisation, every string value is offered to `datetime.fromisoformat`;
on success it becomes a datetime, otherwise it stays a string. -/
def decode_cursor (c : CursorData) : CursorValue × Nat :=
  (match c.value with
   | JVal.jint n => CursorValue.int n
   | JVal.jstr s =>
     match parseIso s.data with
     | some d => CursorValue.dt d
     | none => CursorValue.str s,
   c.id)

theorem d2n_digitChar {a : Nat} (h : a < 10) : d2n (Nat.digitChar a) = a := by
  interval_cases a <;> rfl

theorem digitChar_ne_plus {a : Nat} (h : a < 10) : Nat.digitChar a ≠ '+' := by
  interval_cases a <;> decide

theorem digitChar_ne_minus {a : Nat} (h : a < 10) : Nat.digitChar a ≠ '-' := by
  interval_cases a <;> decide

theorem daysInMonth_le (y m : Nat) : daysInMonth y m ≤ 31 := by
  unfold daysInMonth
  split
  · split <;> omega
  · split <;> omega

theorem splitTz_no_sign : ∀ l : List Char, (∀ c ∈ l, ¬(c = '+' ∨ c = '-')) →
    splitTz l = (l, none) := by
  intro l
  induction l with
  | nil => intro _; rfl
  | cons c rest ih =>
    intro h
    have hc := h c (by simp)
    have hrest := ih (fun x hx => h x (List.mem_cons_of_mem c hx))
    rw [splitTz, if_neg hc, hrest]

/-- Explicit character list of `isoformat` for a naive datetime with
microsecond zero. -/
theorem isoChars_micro_zero (y mo dy hh mi s : Nat) :
    isoChars ⟨y, mo, dy, hh, mi, s, 0, none⟩ =
      [Nat.digitChar (y / 1000), Nat.digitChar (y / 100 % 10),
       Nat.digitChar (y / 10 % 10), Nat.digitChar (y % 10), '-',
       Nat.digitChar (mo / 10), Nat.digitChar (mo % 10), '-',
       Nat.digitChar (dy / 10), Nat.digitChar (dy % 10), 'T',
       Nat.digitChar (hh / 10), Nat.digitChar (hh % 10), ':',
       Nat.digitChar (mi / 10), Nat.digitChar (mi % 10), ':',
       Nat.digitChar (s / 10), Nat.digitChar (s % 10)] := by
  simp [isoChars, pad4, pad2]

/-- Explicit character list of `isoformat` for a naive datetime with
non-zero microseconds. -/
theorem isoChars_micro_pos (y mo dy hh mi s u : Nat) (hu : u ≠ 0) :
    isoChars ⟨y, mo, dy, hh, mi, s, u, none⟩ =
      [Nat.digitChar (y / 1000), Nat.digitChar (y / 100 % 10),
       Nat.digitChar (y / 10 % 10), Nat.digitChar (y % 10), '-',
       Nat.digitChar (mo / 10), Nat.digitChar (mo % 10), '-',
       Nat.digitChar (dy / 10), Nat.digitChar (dy % 10), 'T',
       Nat.digitChar (hh / 10), Nat.digitChar (hh % 10), ':',
       Nat.digitChar (mi / 10), Nat.digitChar (mi % 10), ':',
       Nat.digitChar (s / 10), Nat.digitChar (s % 10), '.',
       Nat.digitChar (u / 100000), Nat.digitChar (u / 10000 % 10),
       Nat.digitChar (u / 1000 % 10), Nat.digitChar (u / 100 % 10),
       Nat.digitChar (u / 10 % 10), Nat.digitChar (u % 10)] := by
  simp [isoChars, pad4, pad2, pad6, hu]

/-- `fromisoformat` inverts `isoformat` on every valid naive datetime. -/
theorem parseIso_isoChars (d : PyDateTime) (h : d.Valid) (htz : d.tz = none) :
    parseIso (isoChars d) = some d := by
  obtain ⟨y, mo, dy, hh, mi, s, u, tz⟩ := d
  simp only at htz
  subst htz
  obtain ⟨h1, h2, h3, h4, h5, h6, h7, h8, h9, h10⟩ := h
  simp only at h1 h2 h3 h4 h5 h6 h7 h8 h9 h10
  have h31 : daysInMonth y mo ≤ 31 := daysInMonth_le y mo
  have hA : 1000 * d2n (Nat.digitChar (y / 1000)) + 100 * d2n (Nat.digitChar (y / 100 % 10))
      + 10 * d2n (Nat.digitChar (y / 10 % 10)) + d2n (Nat.digitChar (y % 10)) = y := by
    rw [d2n_digitChar (by omega), d2n_digitChar (by omega),
      d2n_digitChar (by omega), d2n_digitChar (by omega)]
    omega
  have hB : 10 * d2n (Nat.digitChar (mo / 10)) + d2n (Nat.digitChar (mo % 10)) = mo := by
    rw [d2n_digitChar (by omega), d2n_digitChar (by omega)]
    omega
  have hC : 10 * d2n (Nat.digitChar (dy / 10)) + d2n (Nat.digitChar (dy % 10)) = dy := by
    rw [d2n_digitChar (by omega), d2n_digitChar (by omega)]
    omega
  have hD : 10 * d2n (Nat.digitChar (hh / 10)) + d2n (Nat.digitChar (hh % 10)) = hh := by
    rw [d2n_digitChar (by omega), d2n_digitChar (by omega)]
    omega
  have hE : 10 * d2n (Nat.digitChar (mi / 10)) + d2n (Nat.digitChar (mi % 10)) = mi := by
    rw [d2n_digitChar (by omega), d2n_digitChar (by omega)]
    omega
  have hF : 10 * d2n (Nat.digitChar (s / 10)) + d2n (Nat.digitChar (s % 10)) = s := by
    rw [d2n_digitChar (by omega), d2n_digitChar (by omega)]
    omega
  by_cases hu : u = 0
  · subst hu
    rw [isoChars_micro_zero]
    have hdate : parseDate
        [Nat.digitChar (y / 1000), Nat.digitChar (y / 100 % 10),
         Nat.digitChar (y / 10 % 10), Nat.digitChar (y % 10), '-',
         Nat.digitChar (mo / 10), Nat.digitChar (mo % 10), '-',
         Nat.digitChar (dy / 10), Nat.digitChar (dy % 10), 'T',
         Nat.digitChar (hh / 10), Nat.digitChar (hh % 10), ':',
         Nat.digitChar (mi / 10), Nat.digitChar (mi % 10), ':',
         Nat.digitChar (s / 10), Nat.digitChar (s % 10)]
        = some ((y, mo, dy),
            ['T', Nat.digitChar (hh / 10), Nat.digitChar (hh % 10), ':',
             Nat.digitChar (mi / 10), Nat.digitChar (mi % 10), ':',
             Nat.digitChar (s / 10), Nat.digitChar (s % 10)]) := by
      simp only [parseDate]
      split
      · rw [hA, hB, hC]
      · rename_i hcond
        refine absurd ⟨by trivial, by trivial, ?_⟩ hcond
        simp only [List.all_cons, List.all_nil, Bool.and_eq_true, Bool.and_true]
        exact ⟨digitChar_isDigit (by omega), digitChar_isDigit (by omega),
          digitChar_isDigit (by omega), digitChar_isDigit (by omega),
          digitChar_isDigit (by omega), digitChar_isDigit (by omega),
          digitChar_isDigit (by omega), digitChar_isDigit (by omega)⟩
    have hsplit : splitTz
        [Nat.digitChar (hh / 10), Nat.digitChar (hh % 10), ':',
         Nat.digitChar (mi / 10), Nat.digitChar (mi % 10), ':',
         Nat.digitChar (s / 10), Nat.digitChar (s % 10)]
        = ([Nat.digitChar (hh / 10), Nat.digitChar (hh % 10), ':',
            Nat.digitChar (mi / 10), Nat.digitChar (mi % 10), ':',
            Nat.digitChar (s / 10), Nat.digitChar (s % 10)], none) := by
      refine splitTz_no_sign _ ?_
      intro c hc
      simp only [List.mem_cons, List.not_mem_nil, or_false] at hc
      rcases hc with rfl | rfl | rfl | rfl | rfl | rfl | rfl | rfl <;>
        first
          | (simp only [not_or]
             exact ⟨digitChar_ne_plus (by omega), digitChar_ne_minus (by omega)⟩)
          | decide
    have hhmsf : parseHMSF
        [Nat.digitChar (hh / 10), Nat.digitChar (hh % 10), ':',
         Nat.digitChar (mi / 10), Nat.digitChar (mi % 10), ':',
         Nat.digitChar (s / 10), Nat.digitChar (s % 10)]
        = some (hh, mi, s, 0) := by
      simp only [parseHMSF]
      split
      · rw [hD, hE, hF]
      · rename_i hcond
        refine absurd ⟨by trivial, by trivial, ?_⟩ hcond
        simp only [List.all_cons, List.all_nil, Bool.and_eq_true, Bool.and_true]
        exact ⟨digitChar_isDigit (by omega), digitChar_isDigit (by omega),
          digitChar_isDigit (by omega), digitChar_isDigit (by omega),
          digitChar_isDigit (by omega), digitChar_isDigit (by omega)⟩
    simp only [parseIso, hdate, hsplit, hhmsf]
    rw [mkDT]
    split
    · rfl
    · rename_i hcond
      exact absurd ⟨h1, h2, h3, h4, h5, h6, h7, h8, h9, by omega, rfl⟩ hcond
  · have hG : 100000 * d2n (Nat.digitChar (u / 100000))
        + 10000 * d2n (Nat.digitChar (u / 10000 % 10))
        + 1000 * d2n (Nat.digitChar (u / 1000 % 10))
        + 100 * d2n (Nat.digitChar (u / 100 % 10))
        + 10 * d2n (Nat.digitChar (u / 10 % 10)) + d2n (Nat.digitChar (u % 10)) = u := by
      rw [d2n_digitChar (by omega), d2n_digitChar (by omega), d2n_digitChar (by omega),
        d2n_digitChar (by omega), d2n_digitChar (by omega), d2n_digitChar (by omega)]
      omega
    rw [isoChars_micro_pos y mo dy hh mi s u hu]
    have hdate : parseDate
        [Nat.digitChar (y / 1000), Nat.digitChar (y / 100 % 10),
         Nat.digitChar (y / 10 % 10), Nat.digitChar (y % 10), '-',
         Nat.digitChar (mo / 10), Nat.digitChar (mo % 10), '-',
         Nat.digitChar (dy / 10), Nat.digitChar (dy % 10), 'T',
         Nat.digitChar (hh / 10), Nat.digitChar (hh % 10), ':',
         Nat.digitChar (mi / 10), Nat.digitChar (mi % 10), ':',
         Nat.digitChar (s / 10), Nat.digitChar (s % 10), '.',
         Nat.digitChar (u / 100000), Nat.digitChar (u / 10000 % 10),
         Nat.digitChar (u / 1000 % 10), Nat.digitChar (u / 100 % 10),
         Nat.digitChar (u / 10 % 10), Nat.digitChar (u % 10)]
        = some ((y, mo, dy),
            ['T', Nat.digitChar (hh / 10), Nat.digitChar (hh % 10), ':',
             Nat.digitChar (mi / 10), Nat.digitChar (mi % 10), ':',
             Nat.digitChar (s / 10), Nat.digitChar (s % 10), '.',
             Nat.digitChar (u / 100000), Nat.digitChar (u / 10000 % 10),
             Nat.digitChar (u / 1000 % 10), Nat.digitChar (u / 100 % 10),
             Nat.digitChar (u / 10 % 10), Nat.digitChar (u % 10)]) := by
      simp only [parseDate]
      split
      · rw [hA, hB, hC]
      · rename_i hcond
        refine absurd ⟨by trivial, by trivial, ?_⟩ hcond
        simp only [List.all_cons, List.all_nil, Bool.and_eq_true, Bool.and_true]
        exact ⟨digitChar_isDigit (by omega), digitChar_isDigit (by omega),
          digitChar_isDigit (by omega), digitChar_isDigit (by omega),
          digitChar_isDigit (by omega), digitChar_isDigit (by omega),
          digitChar_isDigit (by omega), digitChar_isDigit (by omega)⟩
    have hsplit : splitTz
        [Nat.digitChar (hh / 10), Nat.digitChar (hh % 10), ':',
         Nat.digitChar (mi / 10), Nat.digitChar (mi % 10), ':',
         Nat.digitChar (s / 10), Nat.digitChar (s % 10), '.',
         Nat.digitChar (u / 100000), Nat.digitChar (u / 10000 % 10),
         Nat.digitChar (u / 1000 % 10), Nat.digitChar (u / 100 % 10),
         Nat.digitChar (u / 10 % 10), Nat.digitChar (u % 10)]
        = ([Nat.digitChar (hh / 10), Nat.digitChar (hh % 10), ':',
            Nat.digitChar (mi / 10), Nat.digitChar (mi % 10), ':',
            Nat.digitChar (s / 10), Nat.digitChar (s % 10), '.',
            Nat.digitChar (u / 100000), Nat.digitChar (u / 10000 % 10),
            Nat.digitChar (u / 1000 % 10), Nat.digitChar (u / 100 % 10),
            Nat.digitChar (u / 10 % 10), Nat.digitChar (u % 10)], none) := by
      refine splitTz_no_sign _ ?_
      intro c hc
      simp only [List.mem_cons, List.not_mem_nil, or_false] at hc
      rcases hc with rfl | rfl | rfl | rfl | rfl | rfl | rfl | rfl | rfl | rfl | rfl
        | rfl | rfl | rfl | rfl <;>
        first
          | (simp only [not_or]
             exact ⟨digitChar_ne_plus (by omega), digitChar_ne_minus (by omega)⟩)
          | decide
    have hhmsf : parseHMSF
        [Nat.digitChar (hh / 10), Nat.digitChar (hh % 10), ':',
         Nat.digitChar (mi / 10), Nat.digitChar (mi % 10), ':',
         Nat.digitChar (s / 10), Nat.digitChar (s % 10), '.',
         Nat.digitChar (u / 100000), Nat.digitChar (u / 10000 % 10),
         Nat.digitChar (u / 1000 % 10), Nat.digitChar (u / 100 % 10),
         Nat.digitChar (u / 10 % 10), Nat.digitChar (u % 10)]
        = some (hh, mi, s, u) := by
      simp only [parseHMSF]
      split
      · rw [hD, hE, hF, hG]
      · rename_i hcond
        refine absurd ⟨by trivial, by trivial, by trivial, ?_⟩ hcond
        simp only [List.all_cons, List.all_nil, Bool.and_eq_true, Bool.and_true]
        exact ⟨digitChar_isDigit (by omega), digitChar_isDigit (by omega),
          digitChar_isDigit (by omega), digitChar_isDigit (by omega),
          digitChar_isDigit (by omega), digitChar_isDigit (by omega),
          digitChar_isDigit (by omega), digitChar_isDigit (by omega),
          digitChar_isDigit (by omega), digitChar_isDigit (by omega),
          digitChar_isDigit (by omega), digitChar_isDigit (by omega)⟩
    simp only [parseIso, hdate, hsplit, hhmsf]
    rw [mkDT]
    split
    · rfl
    · rename_i hcond
      exact absurd ⟨h1, h2, h3, h4, h5, h6, h7, h8, h9, h10, rfl⟩ hcond

/-- The sort values for which the round trip returns the encoded value
unchanged: ints, valid naive datetimes, and strings that `fromisoformat`
rejects. -/
def RoundTripSafe : CursorValue → Prop
  | CursorValue.int _ => True
  | CursorValue.dt d => d.Valid ∧ d.tz = none
  | CursorValue.str s => parseIso s.data = none

/-- The filtered query: all rows when no cursor is given, else the rows
strictly after the cursor in the compound order (comment_service.py lines
191-210). -/
def pageQuery {α : Type} (lt : α → α → Bool) (l : List α) (c : Option α) : List α :=
  match c with
  | none => l
  | some c0 => l.filter (fun r => lt c0 r)

/-- One `get_comments` call on the ordered, filtered rows: fetch
`limit + 1` rows, trim the extra row when present (`comments[:-1]`), and
emit a next-cursor built from the last returned row (comment_service.py
lines 212-225). -/
def getPage {α : Type} (lt : α → α → Bool) (l : List α) (k : Nat) (c : Option α) :
    List α × Option α :=
  if k < ((pageQuery lt l c).take (k + 1)).length then
    (((pageQuery lt l c).take (k + 1)).dropLast,
     ((pageQuery lt l c).take (k + 1)).dropLast.getLast?)
  else ((pageQuery lt l c).take (k + 1), none)

/-- A full client sweep: call `getPage`, follow `next_cursor` until it is
absent, concatenating the returned rows.  `fuel` bounds the number of calls
(any `fuel ≥ l.length` suffices). -/
def sweepPages {α : Type} (lt : α → α → Bool) (l : List α) (k : Nat) :
    Option α → Nat → List α
  | _, 0 => []
  | c, fuel + 1 =>
    match getPage lt l k c with
    | (out, none) => out
    | (out, some c2) => out ++ sweepPages lt l k (some c2) fuel

/-- In a sorted list `pre ++ s`, filtering by "strictly after the last
element of `s.take k`" yields exactly `s.drop k`. -/
theorem filter_after_getLast {α : Type} (lt : α → α → Bool)
    (hasym : ∀ a b, lt a b = true → lt b a = false)
    (l pre s : List α) (k : Nat) (hl : l = pre ++ s)
    (hps : List.Pairwise (fun a b => lt a b = true) l)
    (hk : 1 ≤ k) (hlen : k + 1 ≤ s.length) (hne : s.take k ≠ []) :
    l.filter (fun b => lt ((s.take k).getLast hne) b) = s.drop k := by
  set c := (s.take k).getLast hne with hc
  have hcmem_take : c ∈ s.take k := List.getLast_mem hne
  have hcmem_s : c ∈ s := List.take_subset k s hcmem_take
  subst hl
  rw [List.pairwise_append] at hps
  have hPs : List.Pairwise (fun a b => lt a b = true) s := hps.2.1
  have hPsplit : List.Pairwise (fun a b => lt a b = true) (s.take k ++ s.drop k) := by
    rw [List.take_append_drop]
    exact hPs
  rw [List.pairwise_append] at hPsplit
  have hpre : pre.filter (fun b => lt c b) = [] := by
    rw [List.filter_eq_nil_iff]
    intro a ha
    have hac : lt a c = true := hps.2.2 a ha c hcmem_s
    intro hca
    rw [hasym a c hac] at hca
    exact Bool.noConfusion hca
  have htake : (s.take k).filter (fun b => lt c b) = [] := by
    rw [List.filter_eq_nil_iff]
    intro a ha
    have hdecomp : (s.take k).dropLast ++ [c] = s.take k := List.dropLast_append_getLast hne
    rw [← hdecomp] at ha
    rcases List.mem_append.mp ha with ha' | ha'
    · have hPt := hPsplit.1
      rw [← hdecomp, List.pairwise_append] at hPt
      have hac : lt a c = true := hPt.2.2 a ha' c (by simp)
      intro hca
      rw [hasym a c hac] at hca
      exact Bool.noConfusion hca
    · have haeq : a = c := by simpa using ha'
      subst haeq
      intro hca
      have hself := hasym c c hca
      rw [hself] at hca
      exact Bool.noConfusion hca
  have hdrop : (s.drop k).filter (fun b => lt c b) = s.drop k := by
    rw [List.filter_eq_self]
    intro a ha
    exact hPsplit.2.2 c hcmem_take a ha
  have hs_filter : s.filter (fun b => lt c b) = s.drop k := by
    conv_lhs => rw [← List.take_append_drop k s]
    rw [List.filter_append, htake, List.nil_append, hdrop]
  rw [List.filter_append, hpre, List.nil_append, hs_filter]

/-- The sweep starting from cursor `c` returns exactly the part of the
sorted list that the cursor filter selects. -/
theorem sweepPages_suffix {α : Type} (lt : α → α → Bool)
    (hasym : ∀ a b, lt a b = true → lt b a = false)
    (l : List α) (k : Nat) (hk : 1 ≤ k)
    (hps : List.Pairwise (fun a b => lt a b = true) l) :
    ∀ fuel (c : Option α) pre s, l = pre ++ s → pageQuery lt l c = s →
      s.length ≤ fuel → sweepPages lt l k c fuel = s := by
  intro fuel
  induction fuel with
  | zero =>
    intro c pre s hl hq hlen
    have hnil : s = [] := List.eq_nil_of_length_eq_zero (by omega)
    subst hnil
    rfl
  | succ fuel ih =>
    intro c pre s hl hq hlen
    by_cases hbig : k + 1 ≤ s.length
    · have hlen_take : (s.take (k + 1)).length = k + 1 := by
        rw [List.length_take]
        omega
      have houtlen : (s.take k).length = k := by
        rw [List.length_take]
        omega
      have hne : s.take k ≠ [] := by
        intro hemp
        rw [hemp] at houtlen
        simp at houtlen
        omega
      have hout : (s.take (k + 1)).dropLast = s.take k := by
        rw [List.take_succ]
        have hget : s[k]? = some (s.get ⟨k, by omega⟩) := by
          rw [List.getElem?_eq_getElem (by omega)]
          rfl
        rw [hget, Option.toList_some, List.dropLast_concat]
      have hlast : (s.take k).getLast? = some ((s.take k).getLast hne) :=
        List.getLast?_eq_getLast_of_ne_nil hne
      have hpage : getPage lt l k c
          = (s.take k, some ((s.take k).getLast hne)) := by
        rw [getPage, hq, if_pos (by rw [hlen_take]; omega), hout, hlast]
      have hfilter : l.filter (fun b => lt ((s.take k).getLast hne) b) = s.drop k :=
        filter_after_getLast lt hasym l pre s k hl hps hk hbig hne
      have hrec := ih (some ((s.take k).getLast hne)) (pre ++ s.take k) (s.drop k)
        (by rw [List.append_assoc, List.take_append_drop]; exact hl)
        (by rw [pageQuery]; exact hfilter)
        (by rw [List.length_drop]; omega)
      simp only [sweepPages, hpage]
      rw [hrec, List.take_append_drop]
    · have htake_all : s.take (k + 1) = s := List.take_of_length_le (by omega)
      have hpage : getPage lt l k c = (s, none) := by
        rw [getPage, hq, htake_all, if_neg (by omega)]
      simp only [sweepPages, hpage]

/-- The ascending compound order used by `get_comments`: the cursor filter
`sortCol > cursorVal OR (sortCol == cursorVal AND id > cursorId)` says the
row strictly follows the cursor row. -/
def ltAsc (c r : Int × Nat) : Bool :=
  decide (c.1 < r.1) || (decide (c.1 = r.1) && decide (c.2 < r.2))

/-- The descending compound order: `sortCol < cursorVal OR (sortCol ==
cursorVal AND id < cursorId)`. -/
def ltDesc (c r : Int × Nat) : Bool :=
  decide (r.1 < c.1) || (decide (c.1 = r.1) && decide (r.2 < c.2))

/-- Order selection as in `if query.order == "asc"` (comment_service.py
lines 185-188 and 197-210). -/
def ltOrder (ord : String) : (Int × Nat) → (Int × Nat) → Bool :=
  fun c r => if ord = "asc" then ltAsc c r else ltDesc c r

theorem ltOrder_asym (ord : String) :
    ∀ a b, ltOrder ord a b = true → ltOrder ord b a = false := by
  intro a b
  unfold ltOrder ltAsc ltDesc
  by_cases ho : ord = "asc" <;> simp [ho] <;> omega

/-- C4: pagination completeness with tie-break.  For rows that do not
change during the sweep, listed in the compound (sortCol, id) order of the
requested direction (ascending or descending, id as secondary key), and any
page size `k ≥ 1`: repeatedly calling the `get_comments` page function —
which filters by the strict compound inequality against the cursor, fetches
`limit + 1` rows, trims to `limit` when the extra row exists, and emits a
cursor from the last returned row — yields exactly the original rows, each
exactly once, in order. -/
theorem get_comments_pagination_complete (ord : String) (rows : List (Int × Nat))
    (k fuel : Nat)
    (hsorted : List.Pairwise (fun a b => ltOrder ord a b = true) rows)
    (hk : 1 ≤ k) (hfuel : rows.length ≤ fuel) :
    sweepPages (ltOrder ord) rows k none fuel = rows :=
  sweepPages_suffix (ltOrder ord) (ltOrder_asym ord) rows k hk hsorted
    fuel none [] rows rfl rfl hfuel

/-- Witness for `get_comments_pagination_complete`: a three-row table with a
sort-value tie, swept with page size 1, in both directions. -/
theorem get_comments_pagination_complete_witness :
    sweepPages (ltOrder "asc") [((1 : Int), 1), (1, 2), (2, 3)] 1 none 3
      = [((1 : Int), 1), (1, 2), (2, 3)]
    ∧ sweepPages (ltOrder "desc") [((2 : Int), 3), (1, 2), (1, 1)] 1 none 3
      = [((2 : Int), 3), (1, 2), (1, 1)] :=
  ⟨get_comments_pagination_complete "asc" [((1 : Int), 1), (1, 2), (2, 3)] 1 3
      (by decide) (by decide) (by decide),
   get_comments_pagination_complete "desc" [((2 : Int), 3), (1, 2), (1, 1)] 1 3
      (by decide) (by decide) (by decide)⟩
